import Mathlib

/-!
A shallow embedding of the MNA circuit-analysis engine of
`src/circuit_analysis_pro.tsx` (repository `Nodos_mallas`), together with
theorems settling the specification claims.

Modelling conventions: JavaScript numbers are rationals (`ℚ`); a JS `Map`
is an association list with replace-or-append update; the mutable
`Matrix` class is a structure whose `data` field is a total function on
indices, and `Matrix.solve` threads the receiver object explicitly and
returns it, mirroring the fact that the method only reads `this.data`
(to build the augmented copy) and writes exclusively to that copy.
Digit rendering (`toFixed`) is implemented with round-half-away-from-zero
on exact rationals; no claim depends on rendered digits.
-/

unseal Rat.add Rat.mul Rat.inv Rat.sub Rat.ofScientific

set_option maxRecDepth 100000

namespace Nodos

structure Node where
  id : String
  name : String
deriving DecidableEq

inductive ComponentType where
  | Resistor
  | VoltageSource
  | CurrentSource
deriving DecidableEq

structure Component where
  id : String
  type : ComponentType
  nodes : String × String
  value : ℚ
  unit : String
deriving DecidableEq

inductive Method where
  | nodal
  | mesh
deriving DecidableEq

structure Circuit where
  name : String
  nodes : List Node
  components : List Component
  method : Method
deriving DecidableEq

structure Step where
  title : String
  description : String
  equations : List String := []
  matrix : List (List String) := []
  result : Option String := none
deriving DecidableEq

/-- `convertToOhms` of the source: engineering-prefix multipliers, with
unrecognized units passing through unscaled. -/
def convertToOhms (value : ℚ) (unit : String) : ℚ :=
  value * (if unit = "Ω" then 1 else if unit = "kΩ" then 1000
           else if unit = "MΩ" then 1000000 else if unit = "mΩ" then 1/1000 else 1)

/-- Left-pad with spaces to width `n` (JS `String.prototype.padStart`). -/
def padStart (s : String) (n : ℕ) : String :=
  String.mk (List.replicate (n - s.length) ' ') ++ s

def padZeros (s : String) (n : ℕ) : String :=
  String.mk (List.replicate (n - s.length) '0') ++ s

/-- Decimal rendering of a rational with `d` digits after the point,
rounding half away from zero (stands in for JS `Number.prototype.toFixed`). -/
def toFixed (x : ℚ) (d : ℕ) : String :=
  let r := (⌊|x| * (10 : ℚ) ^ d + 1/2⌋).toNat
  (if x < 0 then "-" else "") ++ toString (r / 10 ^ d) ++
    (if d = 0 then "" else "." ++ padZeros (toString (r % 10 ^ d)) d)

/-- Plain rendering of a rational, used for `${...}` template
interpolation of raw component values. -/
def numStr (x : ℚ) : String :=
  if x.den = 1 then toString x.num else toString x.num ++ "/" ++ toString x.den

/-- Index-decorated list, mirroring the index argument of JS `forEach`/`map`. -/
def enumFrom {α : Type _} : ℕ → List α → List (ℕ × α)
  | _, [] => []
  | i, a :: l => (i, a) :: enumFrom (i + 1) l

/-- The `Matrix` class: `data` is the backing two-dimensional array,
modelled as a total function on indices. -/
structure Matrix where
  rows : ℕ
  cols : ℕ
  data : ℕ → ℕ → ℚ

/-- `new Matrix(rows, cols)` (default initial value 0). -/
def Matrix.new (rows cols : ℕ) : Matrix :=
  ⟨rows, cols, fun _ _ => 0⟩

def Matrix.set (m : Matrix) (r c : ℕ) (v : ℚ) : Matrix :=
  ⟨m.rows, m.cols, fun i j => if i = r ∧ j = c then v else m.data i j⟩

def Matrix.add (m : Matrix) (r c : ℕ) (v : ℚ) : Matrix :=
  ⟨m.rows, m.cols, fun i j => if i = r ∧ j = c then m.data i j + v else m.data i j⟩

/-- `toArray()`: materialize the backing store row by row. -/
def Matrix.toArray (m : Matrix) : List (List ℚ) :=
  (List.range m.rows).map (fun i => (List.range m.cols).map (fun j => m.data i j))

/-- Entry access on a materialized (augmented) matrix; out-of-range reads
default to 0 (they never occur on well-formed sizes). -/
def getE (aug : List (List ℚ)) (i j : ℕ) : ℚ :=
  (aug.getD i []).getD j 0

/-- The solver's fixed numeric tolerance, `1e-10`. -/
def tol : ℚ := 1 / 10 ^ 10

def formatAugmented (aug : List (List ℚ)) : String :=
  String.intercalate "\n" (aug.map (fun row =>
    "[" ++ String.intercalate " " (row.dropLast.map (fun v => padStart (toFixed v 4) 10)) ++
      " | " ++ padStart (toFixed (row.getLast?.getD 0) 4) 10 ++ "]"))

/-- Row swap `[augmented[i], augmented[maxRow]] = [augmented[maxRow], augmented[i]]`. -/
def swapRows (aug : List (List ℚ)) (i k : ℕ) : List (List ℚ) :=
  let ri := aug.getD i []
  let rk := aug.getD k []
  (aug.set i rk).set k ri

/-- `for (j = i; j <= n; j++) augmented[k][j] -= factor * augmented[i][j]`. -/
def rowOp (aug : List (List ℚ)) (i k : ℕ) (factor : ℚ) : List (List ℚ) :=
  aug.set k ((enumFrom 0 (aug.getD k [])).map
    (fun p => if i ≤ p.1 then p.2 - factor * getE aug i p.1 else p.2))

/-- Forward elimination with partial pivoting; `fuel` counts the remaining
pivot columns (`fuel = n - i` throughout). Returns `none` (singular) when
the best-available pivot is below `tol`, together with the step records
accumulated so far. -/
def forwardElim (n : ℕ) :
    ℕ → ℕ → List (List ℚ) → List (String × String) →
      Option (List (List ℚ)) × List (String × String)
  | 0, _, aug, steps => (some aug, steps)
  | fuel + 1, i, aug, steps =>
    let maxRow := (List.range' (i + 1) (n - (i + 1))).foldl
      (fun mr k => if |getE aug k i| > |getE aug mr i| then k else mr) i
    let aug1 := if maxRow ≠ i then swapRows aug i maxRow else aug
    let steps1 := if maxRow ≠ i then
        steps ++ [("Paso " ++ toString (i + 1) ++ "a: Intercambiar fila " ++
          toString (i + 1) ++ " con fila " ++ toString (maxRow + 1), formatAugmented aug1)]
      else steps
    if |getE aug1 i i| < tol then (none, steps1)
    else
      let p := (List.range' (i + 1) (n - (i + 1))).foldl
        (fun p k =>
          let factor := getE p.1 k i / getE p.1 i i
          if |factor| > tol then
            let newAug := rowOp p.1 i k factor
            (newAug, p.2 ++ [("Paso " ++ toString (i + 1) ++ "b: F" ++ toString (k + 1) ++
              " = F" ++ toString (k + 1) ++ " - (" ++ toFixed factor 4 ++ ") × F" ++
              toString (i + 1), formatAugmented newAug)])
          else p)
        (aug1, steps1)
      forwardElim n fuel (i + 1) p.1 p.2

/-- Back substitution: `x[i] = (b[i] - Σ_{j>i} A[i][j]·x[j]) / A[i][i]`. -/
def backSub (n : ℕ) (aug : List (List ℚ)) : List ℚ :=
  (List.range n).reverse.foldl
    (fun x i =>
      let s := ((List.range' (i + 1) (n - (i + 1))).map
        (fun j => getE aug i j * x.getD j 0)).sum
      x.set i ((getE aug i n - s) / getE aug i i))
    (List.replicate n 0)

/-- `Matrix.prototype.solve`: works on an augmented copy of `this.data`;
the receiver is returned unchanged (the method never writes `this.data`). -/
def Matrix.solve (m : Matrix) (b : List ℚ) :
    (Option (List ℚ) × List (String × String)) × Matrix :=
  let n := m.rows
  let augmented := (List.range n).map
    (fun i => (List.range n).map (fun j => m.data i j) ++ [b.getD i 0])
  let steps0 : List (String × String) :=
    [("Matriz aumentada inicial:", formatAugmented augmented)]
  match forwardElim n n 0 augmented steps0 with
  | (none, steps) => ((none, steps), m)
  | (some aug, steps) =>
    let steps1 := steps ++ [("Matriz escalonada:", formatAugmented aug)]
    let x := backSub n aug
    let steps2 := steps1 ++ [("Sustitución hacia atrás:",
      String.intercalate "\n" ((enumFrom 0 x).map
        (fun p => "x" ++ toString (p.1 + 1) ++ " = " ++ toFixed p.2 6)))]
    ((some x, steps2), m)

/-! ## `analyzeNodalMethod`: MNA assembly, solve, interpretation -/

def groundNode : String := "gnd"

/-- `circuit.nodes.filter(n => n.id !== groundNode)`. -/
def unknownNodes (c : Circuit) : List Node :=
  c.nodes.filter (fun n => n.id ≠ groundNode)

def numNodes (c : Circuit) : ℕ := (unknownNodes c).length

def voltageSources (c : Circuit) : List Component :=
  c.components.filter (fun comp => comp.type = ComponentType.VoltageSource)

def resistors (c : Circuit) : List Component :=
  c.components.filter (fun comp => comp.type = ComponentType.Resistor)

def matrixSize (c : Circuit) : ℕ := numNodes c + (voltageSources c).length

/-- Conductance of a resistor, `G = 1 / R` with `R` in base ohms. -/
def Gof (r : Component) : ℚ := 1 / convertToOhms r.value r.unit

/-- The per-resistor conductance list (the `conductances` array of the source,
keeping the component and its `G`). -/
def conductances (c : Circuit) : List (Component × ℚ) :=
  (resistors c).map (fun r => (r, Gof r))

/-- The `nodeMap` lookup. JS `Map` construction lets a later duplicate key
overwrite an earlier one, so the last matching position wins. -/
def nodeIdx (c : Circuit) (s : String) : Option ℕ :=
  (((enumFrom 0 (unknownNodes c))).filter (fun p => p.2.id = s)).getLast?.map Prod.fst

/-- One resistor's stamp on the KCL row `idx` of node `nid`.
A missing `otherNode` (invalid circuit) drops the off-diagonal write, as the
JS `data[row][undefined]` write is invisible to `toArray`/`solve`. -/
def stampConductanceStep (c : Circuit) (idx : ℕ) (nid : String) (m : Matrix)
    (cg : Component × ℚ) : Matrix :=
  if cg.1.nodes.1 = nid ∨ cg.1.nodes.2 = nid then
    let otherNode := if cg.1.nodes.1 = nid then cg.1.nodes.2 else cg.1.nodes.1
    if otherNode = groundNode then Matrix.add m idx idx cg.2
    else
      match nodeIdx c otherNode with
      | some otherIdx => Matrix.add (Matrix.add m idx idx cg.2) idx otherIdx (-cg.2)
      | none => Matrix.add m idx idx cg.2
  else m

/-- Resistor stamps contributed to the KCL row `idx` of node `nid`. -/
def stampConductances (c : Circuit) (idx : ℕ) (nid : String) (m : Matrix) : Matrix :=
  (conductances c).foldl (stampConductanceStep c idx nid) m

/-- One voltage source's branch-current column entry on the KCL row of `nid`. -/
def stampVSColStep (c : Circuit) (idx : ℕ) (nid : String) (m : Matrix)
    (p : ℕ × Component) : Matrix :=
  if p.2.nodes.1 = nid then Matrix.set m idx (numNodes c + p.1) 1
  else if p.2.nodes.2 = nid then Matrix.set m idx (numNodes c + p.1) (-1)
  else m

/-- Voltage-source branch-current column entries on the KCL row of node `nid`. -/
def stampVSCols (c : Circuit) (idx : ℕ) (nid : String) (m : Matrix) : Matrix :=
  (enumFrom 0 (voltageSources c)).foldl (stampVSColStep c idx nid) m

/-- One voltage source's auxiliary constraint row. A terminal that is
ground, or absent from the node map (`undefined >= 0` is false in JS),
contributes no coefficient. -/
def stampVSRowStep (c : Circuit) (m : Matrix) (p : ℕ × Component) : Matrix :=
  let posIdx := if p.2.nodes.1 = groundNode then none else nodeIdx c p.2.nodes.1
  let negIdx := if p.2.nodes.2 = groundNode then none else nodeIdx c p.2.nodes.2
  match posIdx, negIdx with
  | some pIdx, some nIdx =>
    Matrix.set (Matrix.set m (numNodes c + p.1) pIdx 1) (numNodes c + p.1) nIdx (-1)
  | some pIdx, none => Matrix.set m (numNodes c + p.1) pIdx 1
  | none, some nIdx => Matrix.set m (numNodes c + p.1) nIdx (-1)
  | none, none => m

/-- The auxiliary constraint rows, one per voltage source. -/
def stampVSRows (c : Circuit) (m : Matrix) : Matrix :=
  (enumFrom 0 (voltageSources c)).foldl (stampVSRowStep c) m

/-- The whole body of the per-node assembly loop for one node. -/
def stampNode (c : Circuit) (m : Matrix) (p : ℕ × Node) : Matrix :=
  stampVSCols c p.1 p.2.id (stampConductances c p.1 p.2.id m)

/-- The assembled MNA coefficient matrix `A`. -/
def buildA (c : Circuit) : Matrix :=
  stampVSRows c
    ((enumFrom 0 (unknownNodes c)).foldl (stampNode c)
      (Matrix.new (matrixSize c) (matrixSize c)))

/-- The right-hand side `b`: zeros on node rows, the source value on each
auxiliary row. -/
def buildb (c : Circuit) : List ℚ :=
  List.replicate (numNodes c) 0 ++ (voltageSources c).map (fun vs => vs.value)

/-- The symbolic KCL / source equation strings of assembly step 3. -/
def nodeEquations (c : Circuit) : List String :=
  ((enumFrom 0 (unknownNodes c)).map (fun p =>
    let terms :=
      ((conductances c).filterMap (fun cg =>
        if cg.1.nodes.1 = p.2.id ∨ cg.1.nodes.2 = p.2.id then
          let otherNode := if cg.1.nodes.1 = p.2.id then cg.1.nodes.2 else cg.1.nodes.1
          if otherNode = groundNode then
            some ("G" ++ cg.1.id ++ "·V" ++ toString (p.1 + 1))
          else
            some ("G" ++ cg.1.id ++ "·(V" ++ toString (p.1 + 1) ++ " - V" ++
              (((nodeIdx c otherNode).map (fun k => toString (k + 1))).getD "undefined") ++ ")")
        else none)) ++
      ((enumFrom 0 (voltageSources c)).filterMap (fun q =>
        if q.2.nodes.1 = p.2.id then some ("+I" ++ toString (q.1 + 1))
        else if q.2.nodes.2 = p.2.id then some ("-I" ++ toString (q.1 + 1))
        else none))
    "Nodo " ++ p.2.id ++ ": " ++ String.intercalate " " terms ++ " = 0")) ++
  ((enumFrom 0 (voltageSources c)).map (fun q =>
    let posIdx := if q.2.nodes.1 = groundNode then none else nodeIdx c q.2.nodes.1
    let negIdx := if q.2.nodes.2 = groundNode then none else nodeIdx c q.2.nodes.2
    "Fuente " ++ q.2.id ++ ": " ++
      (match posIdx, negIdx with
       | some pIdx, some nIdx =>
         "V" ++ toString (pIdx + 1) ++ " - V" ++ toString (nIdx + 1) ++ " = " ++
           numStr q.2.value ++ " V"
       | some pIdx, none => "V" ++ toString (pIdx + 1) ++ " = " ++ numStr q.2.value ++ " V"
       | none, some nIdx => "-V" ++ toString (nIdx + 1) ++ " = " ++ numStr q.2.value ++ " V"
       | none, none => "")))

/-- PASO 1: circuit identification record. -/
def step1 (c : Circuit) : Step :=
  { title := "1. IDENTIFICACIÓN Y ANÁLISIS DEL CIRCUITO"
    description :=
      "Método: Análisis Nodal Modificado (MNA)\nNodos totales: " ++
        toString c.nodes.length ++ "\nNodos incógnita: " ++ toString (numNodes c) ++
        " (excluyendo tierra)\nFuentes de voltaje: " ++
        toString (voltageSources c).length ++ "\nResistencias: " ++
        toString (resistors c).length ++ "\n\nVariables a resolver:\n" ++
        String.intercalate "\n" ((enumFrom 0 (unknownNodes c)).map
          (fun p => "  V" ++ toString (p.1 + 1) ++ " (voltaje en nodo " ++ p.2.id ++ ")")) ++
        "\n" ++
        String.intercalate "\n" ((enumFrom 0 (voltageSources c)).map
          (fun p => "  I" ++ toString (p.1 + 1) ++ " (corriente en " ++ p.2.id ++ ")"))
    equations := [] }

/-- PASO 2: conductance conversion record. -/
def step2 (c : Circuit) : Step :=
  { title := "2. CONVERSIÓN A CONDUCTANCIAS"
    description := "Convertimos las resistencias a conductancias (G = 1/R):"
    equations := (conductances c).map (fun cg =>
      cg.1.id ++ ": R = " ++ numStr cg.1.value ++ " " ++ cg.1.unit ++ " = " ++
        toFixed (convertToOhms cg.1.value cg.1.unit) 4 ++ " Ω  →  G = " ++
        toFixed cg.2 8 ++ " S") }

/-- PASO 3: nodal equation record. -/
def step3 (c : Circuit) : Step :=
  { title := "3. PLANTEAMIENTO DE ECUACIONES NODALES"
    description := "Aplicando la Ley de Corrientes de Kirchhoff (KCL):"
    equations := nodeEquations c }

/-- PASO 4: rendered initial matrix record. -/
def step4 (c : Circuit) : Step :=
  { title := "4. SISTEMA MATRICIAL [A][x] = [b]"
    description := "Representación matricial del sistema de ecuaciones:"
    matrix := [(enumFrom 0 (buildA c).toArray).map (fun p =>
      "[" ++ String.intercalate " " (p.2.map (fun v => padStart (toFixed v 4) 10)) ++
        "] [x" ++ toString (p.1 + 1) ++ "] = [" ++
        toFixed ((buildb c).getD p.1 0) 4 ++ "]")] }

/-- The four records the analysis pushes before invoking the solver. -/
def preSolveSteps (c : Circuit) : List Step :=
  [step1 c, step2 c, step3 c, step4 c]

/-- PASO 5: elimination trace record. -/
def step5 (solutionSteps : List (String × String)) : Step :=
  { title := "5. RESOLUCIÓN POR ELIMINACIÓN GAUSSIANA"
    description := "Aplicando eliminación Gaussiana con pivoteo parcial:"
    equations := solutionSteps.map (fun p => p.1 ++ "\n" ++ p.2) }

/-- Replace-or-append update of a JS `Map` (insertion order preserved). -/
def mapSet (m : List (String × ℚ)) (k : String) (v : ℚ) : List (String × ℚ) :=
  if m.any (fun p => p.1 == k) then m.map (fun p => if p.1 = k then (k, v) else p)
  else m ++ [(k, v)]

def mapGet (m : List (String × ℚ)) (k : String) : Option ℚ :=
  (m.find? (fun p => p.1 == k)).map Prod.snd

/-- The returned node-potential map: ground first at 0, then each unknown
node from the solution vector. -/
def voltagesOf (c : Circuit) (x : List ℚ) : List (String × ℚ) :=
  (enumFrom 0 (unknownNodes c)).foldl
    (fun m p => mapSet m p.2.id (x.getD p.1 0))
    (mapSet [] groundNode 0)

/-- PASO 6: interpretation record. -/
def step6 (c : Circuit) (x : List ℚ) : Step :=
  { title := "6. INTERPRETACIÓN DE RESULTADOS"
    description := "Valores de voltajes y corrientes obtenidos:"
    equations :=
      ["Voltaje en tierra (referencia): 0.0000 V"] ++
      ((enumFrom 0 (unknownNodes c)).map (fun p =>
        "Voltaje en " ++ p.2.id ++ ": V" ++ toString (p.1 + 1) ++ " = " ++
          toFixed (x.getD p.1 0) 4 ++ " V")) ++
      (if (voltageSources c).length > 0 then
        ["\nCorrientes en fuentes de voltaje:"] ++
        ((enumFrom 0 (voltageSources c)).map (fun p =>
          "Corriente en " ++ p.2.id ++ ": I" ++ toString (p.1 + 1) ++ " = " ++
            toFixed (x.getD (numNodes c + p.1) 0) 4 ++ " A = " ++
            toFixed (x.getD (numNodes c + p.1) 0 * 1000) 4 ++ " mA"))
      else []) }

structure ComponentResult where
  id : String
  type : ComponentType
  nodes : String × String
  value : ℚ
  unit : String
  voltage : ℚ
  current : ℚ
  power : ℚ
deriving DecidableEq

/-- PASO 7 data for one component: voltage, current and power. -/
def componentResultOf (c : Circuit) (voltages : List (String × ℚ)) (x : List ℚ)
    (comp : Component) : ComponentResult :=
  let vA := (mapGet voltages comp.nodes.1).getD 0
  let vB := (mapGet voltages comp.nodes.2).getD 0
  let voltage := vA - vB
  let current :=
    if comp.type = ComponentType.Resistor then
      voltage / convertToOhms comp.value comp.unit
    else if comp.type = ComponentType.VoltageSource then
      match (voltageSources c).findIdx? (fun vs => vs.id == comp.id) with
      | some vsIdx => x.getD (numNodes c + vsIdx) 0
      | none => 0
    else 0
  { id := comp.id, type := comp.type, nodes := comp.nodes, value := comp.value
    unit := comp.unit, voltage := voltage, current := current
    power := |voltage * current| }

/-- PASO 7 data: per-component voltage, current and power. -/
def componentResultsOf (c : Circuit) (voltages : List (String × ℚ)) (x : List ℚ) :
    List ComponentResult :=
  c.components.map (componentResultOf c voltages x)

/-- PASO 7: calculation record. -/
def step7 (voltages : List (String × ℚ)) (rs : List ComponentResult) : Step :=
  { title := "7. CÁLCULO DE CORRIENTES Y POTENCIAS"
    description := "Usando la Ley de Ohm (I = V/R) y P = V × I:"
    equations := rs.map (fun comp =>
      if comp.type = ComponentType.Resistor then
        let vA := (mapGet voltages comp.nodes.1).getD 0
        let vB := (mapGet voltages comp.nodes.2).getD 0
        let R := convertToOhms comp.value comp.unit
        comp.id ++ " (" ++ comp.nodes.1 ++ " → " ++ comp.nodes.2 ++ "):\n  V = V(" ++
          comp.nodes.1 ++ ") - V(" ++ comp.nodes.2 ++ ") = " ++ toFixed vA 4 ++ " - " ++
          toFixed vB 4 ++ " = " ++ toFixed comp.voltage 4 ++ " V\n  I = V/R = " ++
          toFixed comp.voltage 4 ++ " / " ++ toFixed R 4 ++ " = " ++
          toFixed comp.current 6 ++ " A = " ++ toFixed (comp.current * 1000) 4 ++
          " mA\n  P = V × I = " ++ toFixed comp.voltage 4 ++ " × " ++
          toFixed comp.current 6 ++ " = " ++ toFixed comp.power 6 ++ " W"
      else
        comp.id ++ ":\n  V = " ++ toFixed comp.voltage 4 ++ " V\n  I = " ++
          toFixed comp.current 6 ++ " A = " ++ toFixed (comp.current * 1000) 4 ++
          " mA\n  P = " ++ toFixed comp.power 6 ++ " W") }

def totalPowerDissipated (rs : List ComponentResult) : ℚ :=
  ((rs.filter (fun r => r.type = ComponentType.Resistor)).map (fun r => r.power)).sum

def totalPowerSupplied (rs : List ComponentResult) : ℚ :=
  ((rs.filter (fun r => r.type = ComponentType.VoltageSource)).map (fun r => r.power)).sum

/-- The verification equations; note the pass/fail marker compares the
signed difference `supplied - dissipated` against `0.001`. -/
def verificationEquations (rs : List ComponentResult) : List String :=
  ["Potencia total disipada en resistencias:"] ++
  ((rs.filter (fun r => r.type = ComponentType.Resistor)).map (fun r =>
    "  " ++ r.id ++ ": " ++ toFixed r.power 6 ++ " W")) ++
  ["  TOTAL DISIPADO: " ++ toFixed (totalPowerDissipated rs) 6 ++ " W", "",
   "Potencia total suministrada por fuentes:"] ++
  ((rs.filter (fun r => r.type = ComponentType.VoltageSource)).map (fun r =>
    "  " ++ r.id ++ ": " ++ toFixed r.power 6 ++ " W")) ++
  ["  TOTAL SUMINISTRADO: " ++ toFixed (totalPowerSupplied rs) 6 ++ " W", "",
   "Diferencia: " ++ toFixed (|totalPowerSupplied rs - totalPowerDissipated rs|) 6 ++ " W"] ++
  [if totalPowerSupplied rs - totalPowerDissipated rs < 1/1000 then
     "✓ Balance de energía verificado"
   else "⚠ Revisar balance de energía"]

/-- PASO 8: verification record. -/
def step8 (rs : List ComponentResult) : Step :=
  { title := "8. VERIFICACIÓN DE RESULTADOS"
    description := "Verificación del balance de energía (Conservación de la energía):"
    equations := verificationEquations rs }

inductive AnalysisResult where
  | error (error : String) (steps : List Step)
  | ok (voltages : List (String × ℚ)) (componentResults : List ComponentResult)
      (steps : List Step)
deriving DecidableEq

/-- `analyzeNodalMethod`: the analysis entry point. -/
def analyzeNodalMethod (c : Circuit) : AnalysisResult :=
  match ((buildA c).solve (buildb c)).1 with
  | (none, _) => AnalysisResult.error "El sistema no tiene solución única" (preSolveSteps c)
  | (some x, solutionSteps) =>
    let voltages := voltagesOf c x
    let componentResults := componentResultsOf c voltages x
    AnalysisResult.ok voltages componentResults
      (preSolveSteps c ++
        [step5 solutionSteps, step6 c x, step7 voltages componentResults,
         step8 componentResults])

/-! ### Observers on the analysis outcome -/

def AnalysisResult.isOk : AnalysisResult → Bool
  | .ok _ _ _ => true
  | .error _ _ => false

def AnalysisResult.stepsOf : AnalysisResult → List Step
  | .ok _ _ s => s
  | .error _ s => s

def AnalysisResult.voltageAt : AnalysisResult → String → Option ℚ
  | .ok v _ _, s => mapGet v s
  | .error _ _, _ => none

def AnalysisResult.currentOf : AnalysisResult → String → Option ℚ
  | .ok _ rs _, i => (rs.find? (fun r => r.id == i)).map (fun r => r.current)
  | .error _ _, _ => none

def AnalysisResult.resultsOf : AnalysisResult → List ComponentResult
  | .ok _ rs _ => rs
  | .error _ _ => []

def AnalysisResult.suppliedOf (r : AnalysisResult) : ℚ :=
  totalPowerSupplied r.resultsOf

def AnalysisResult.dissipatedOf (r : AnalysisResult) : ℚ :=
  totalPowerDissipated r.resultsOf

/-- The last equation line of the last step record: on success this is the
energy-balance pass/fail marker. -/
def AnalysisResult.lastMarker (r : AnalysisResult) : Option String :=
  r.stepsOf.getLast?.bind (fun st => st.equations.getLast?)

def stepTitles (r : AnalysisResult) : List String :=
  r.stepsOf.map (fun s => s.title)

/-! ## Derived notions used to state the claims -/

/-- The same circuit with every `CurrentSource` component removed. -/
def removeCS (c : Circuit) : Circuit :=
  { c with components :=
      c.components.filter (fun comp => comp.type ≠ ComponentType.CurrentSource) }

/-- Does resistor `x` connect the (distinct) node identifiers `s` and `t`? -/
def connectsB (x : Component) (s t : String) : Bool :=
  (x.nodes.1 == s && x.nodes.2 == t) || (x.nodes.1 == t && x.nodes.2 == s)

/-- Is exactly one terminal of `x` the node identifier `s`
(i.e. incident to `s` but not a self-loop on `s`)? -/
def incidentProperB (x : Component) (s : String) : Bool :=
  (x.nodes.1 == s || x.nodes.2 == s) && !(x.nodes.1 == s && x.nodes.2 == s)

/-- Total conductance of the resistors joining nodes `s` and `t`. -/
def GsumBetween (c : Circuit) (s t : String) : ℚ :=
  (((resistors c).filter (fun x => connectsB x s t)).map Gof).sum

/-- Total conductance stamped on the diagonal entry of node `s`
(every incident resistor except self-loops, ground returns included). -/
def GdiagSum (c : Circuit) (s : String) : ℚ :=
  (((resistors c).filter (fun x => incidentProperB x s)).map Gof).sum

/-- Remove the first occurrence of an element from a list. -/
def eraseOnce {α : Type _} [DecidableEq α] : List α → α → List α
  | [], _ => []
  | a :: l, x => if a = x then l else a :: eraseOnce l x

/-- `GsumBetween` with one occurrence of the resistor `r` removed. -/
def GsumBetweenExcept (c : Circuit) (r : Component) (s t : String) : ℚ :=
  (((eraseOnce (resistors c) r).filter (fun x => connectsB x s t)).map Gof).sum

/-- `GdiagSum` with one occurrence of the resistor `r` removed. -/
def GdiagSumExcept (c : Circuit) (r : Component) (s : String) : ℚ :=
  (((eraseOnce (resistors c) r).filter (fun x => incidentProperB x s)).map Gof).sum

/-! ## Concrete circuits used by the claim theorems -/

/-- The single-node voltage divider of spec Example 1: a 12 V source and a
resistor of `R` base ohms, both from `n1` to ground. -/
def divC (R : ℚ) : Circuit :=
  ⟨"div", [⟨"n1", "Nodo 1"⟩, ⟨"gnd", "Tierra"⟩],
   [⟨"V1", ComponentType.VoltageSource, ("n1", "gnd"), 12, "V"⟩,
    ⟨"R1", ComponentType.Resistor, ("n1", "gnd"), R, "Ω"⟩], Method.nodal⟩

/-- The circuit of spec Example 2 exactly as the claim states it, with the
extra (floating) node `n3`. -/
def c2bad : Circuit :=
  ⟨"Ejercicio 2", [⟨"n1", "Nodo 1"⟩, ⟨"n2", "Nodo 2"⟩, ⟨"n3", "Nodo 3"⟩, ⟨"gnd", "Tierra"⟩],
   [⟨"V1", ComponentType.VoltageSource, ("n1", "gnd"), 10, "V"⟩,
    ⟨"R1", ComponentType.Resistor, ("n1", "n2"), 2, "kΩ"⟩,
    ⟨"R2", ComponentType.Resistor, ("n2", "gnd"), 3, "kΩ"⟩,
    ⟨"R3", ComponentType.Resistor, ("n2", "gnd"), 2, "kΩ"⟩], Method.nodal⟩

/-- The source's Ejercicio 2: same components, nodes `n1`, `n2`, `gnd` only. -/
def c2good : Circuit :=
  ⟨"Ejercicio 2", [⟨"n1", "Nodo 1"⟩, ⟨"n2", "Nodo 2"⟩, ⟨"gnd", "Tierra"⟩],
   [⟨"V1", ComponentType.VoltageSource, ("n1", "gnd"), 10, "V"⟩,
    ⟨"R1", ComponentType.Resistor, ("n1", "n2"), 2, "kΩ"⟩,
    ⟨"R2", ComponentType.Resistor, ("n2", "gnd"), 3, "kΩ"⟩,
    ⟨"R3", ComponentType.Resistor, ("n2", "gnd"), 2, "kΩ"⟩], Method.nodal⟩

/-- Two opposed sources across one 70 kΩ resistor: the reported
supplied-minus-dissipated difference is exactly `0.001`. -/
def c3x : Circuit :=
  ⟨"boundary", [⟨"n1", "Nodo 1"⟩, ⟨"n2", "Nodo 2"⟩, ⟨"gnd", "Tierra"⟩],
   [⟨"V1", ComponentType.VoltageSource, ("n1", "gnd"), 12, "V"⟩,
    ⟨"V2", ComponentType.VoltageSource, ("n2", "gnd"), 5, "V"⟩,
    ⟨"R1", ComponentType.Resistor, ("n1", "n2"), 70000, "Ω"⟩], Method.nodal⟩

/-- One non-ground node and no components: the assembled 1×1 system is
singular, and the solver has already recorded the initial augmented matrix. -/
def c4x : Circuit := ⟨"vacío", [⟨"n1", "Nodo 1"⟩], [], Method.nodal⟩

/-- A floating resistor between two non-ground nodes: singular system. -/
def c4w : Circuit :=
  ⟨"flotante", [⟨"n1", "Nodo 1"⟩, ⟨"n2", "Nodo 2"⟩],
   [⟨"R1", ComponentType.Resistor, ("n1", "n2"), 1, "Ω"⟩], Method.nodal⟩

/-- A circuit whose node set contains no node with identifier `gnd`. -/
def c10w : Circuit :=
  ⟨"sin tierra", [⟨"a", "Nodo A"⟩],
   [⟨"V1", ComponentType.VoltageSource, ("a", "a"), 5, "V"⟩], Method.nodal⟩

/-- The divider plus a declared current source between `n1` and ground. -/
def c9w : Circuit :=
  ⟨"con fuente de corriente", [⟨"n1", "Nodo 1"⟩, ⟨"gnd", "Tierra"⟩],
   [⟨"V1", ComponentType.VoltageSource, ("n1", "gnd"), 12, "V"⟩,
    ⟨"R1", ComponentType.Resistor, ("n1", "gnd"), 6, "Ω"⟩,
    ⟨"I1", ComponentType.CurrentSource, ("n1", "gnd"), 2, "A"⟩], Method.nodal⟩

/-! ## Helper lemmas -/

theorem analyze_ok_inv {c : Circuit} {v : List (String × ℚ)} {r : List ComponentResult}
    {s : List Step} (h : analyzeNodalMethod c = .ok v r s) :
    ∃ x ss, ((buildA c).solve (buildb c)).1 = (some x, ss) ∧
      v = voltagesOf c x ∧ r = componentResultsOf c (voltagesOf c x) x ∧
      s = preSolveSteps c ++
        [step5 ss, step6 c x, step7 (voltagesOf c x) (componentResultsOf c (voltagesOf c x) x),
         step8 (componentResultsOf c (voltagesOf c x) x)] := by
  unfold analyzeNodalMethod at h
  rcases hs : ((buildA c).solve (buildb c)).1 with ⟨sol, ss⟩
  rw [hs] at h
  cases sol with
  | none => exact absurd h (by simp)
  | some x =>
    simp only [AnalysisResult.ok.injEq] at h
    obtain ⟨hv, hr, hsteps⟩ := h
    exact ⟨x, ss, rfl, hv.symm, hr.symm, hsteps.symm⟩

theorem isOk_inv {c : Circuit} (h : (analyzeNodalMethod c).isOk = true) :
    ∃ v r s, analyzeNodalMethod c = .ok v r s := by
  cases ha : analyzeNodalMethod c with
  | error e s => rw [ha] at h; exact absurd h (by simp [AnalysisResult.isOk])
  | ok v r s => exact ⟨v, r, s, rfl⟩

theorem enumFrom_mem_snd {α : Type _} {p : ℕ × α} :
    ∀ {n : ℕ} {l : List α}, p ∈ enumFrom n l → p.2 ∈ l := by
  intro n l
  induction l generalizing n with
  | nil => intro h; exact absurd h (by simp [enumFrom])
  | cons a t ih =>
    intro h
    rw [enumFrom] at h
    rcases List.mem_cons.mp h with h1 | h2
    · subst h1; exact List.mem_cons_self _ _
    · exact List.mem_cons_of_mem _ (ih h2)

theorem mem_enumFrom {α : Type _} {a : α} :
    ∀ {l : List α} {n : ℕ}, a ∈ l → ∃ k, (k, a) ∈ enumFrom n l := by
  intro l
  induction l with
  | nil => intro n h; exact absurd h (by simp)
  | cons b t ih =>
    intro n h
    rcases List.mem_cons.mp h with h1 | h2
    · exact ⟨n, by rw [h1, enumFrom]; exact List.mem_cons_self _ _⟩
    · obtain ⟨k, hk⟩ := ih (n := n + 1) h2
      exact ⟨k, by rw [enumFrom]; exact List.mem_cons_of_mem _ hk⟩

theorem find?_snd_map_replace (t : List (String × ℚ)) (k s : String) (v : ℚ)
    (hks : k ≠ s) :
    ((t.map (fun p => if p.1 = k then (k, v) else p)).find? (fun p => p.1 == s)) =
      t.find? (fun p => p.1 == s) := by
  induction t with
  | nil => rfl
  | cons p t ih =>
    by_cases hp : p.1 = k
    · rw [List.map_cons, if_pos hp,
        List.find?_cons_of_neg _ (by simp [hks]),
        List.find?_cons_of_neg _ (by simp [hp, hks])]
      exact ih
    · rw [List.map_cons, if_neg hp]
      by_cases hps : p.1 = s
      · rw [List.find?_cons_of_pos _ (by simp [hps]), List.find?_cons_of_pos _ (by simp [hps])]
      · rw [List.find?_cons_of_neg _ (by simp [hps]), List.find?_cons_of_neg _ (by simp [hps])]
        exact ih

theorem find?_append_single_ne (t : List (String × ℚ)) (k s : String) (v : ℚ)
    (hks : k ≠ s) :
    ((t ++ [(k, v)]).find? (fun p => p.1 == s)) = t.find? (fun p => p.1 == s) := by
  induction t with
  | nil =>
    rw [List.nil_append, List.find?_cons_of_neg _ (by simp [hks])]
  | cons p t ih =>
    rw [List.cons_append]
    by_cases hps : p.1 = s
    · rw [List.find?_cons_of_pos _ (by simp [hps]), List.find?_cons_of_pos _ (by simp [hps])]
    · rw [List.find?_cons_of_neg _ (by simp [hps]), List.find?_cons_of_neg _ (by simp [hps])]
      exact ih

theorem mapGet_mapSet_ne (m : List (String × ℚ)) (k : String) (v : ℚ) (s : String)
    (hks : k ≠ s) : mapGet (mapSet m k v) s = mapGet m s := by
  unfold mapSet mapGet
  split
  · rw [find?_snd_map_replace m k s v hks]
  · rw [find?_append_single_ne m k s v hks]

theorem mapGet_voltagesOf_ground (c : Circuit) (x : List ℚ) :
    mapGet (voltagesOf c x) groundNode = some 0 := by
  unfold voltagesOf
  have base : mapGet (mapSet [] groundNode 0) groundNode = some 0 := by decide
  have : ∀ (l : List (ℕ × Node)) (m : List (String × ℚ)),
      (∀ p ∈ l, p.2.id ≠ groundNode) → mapGet m groundNode = some 0 →
      mapGet (l.foldl (fun m p => mapSet m p.2.id (x.getD p.1 0)) m) groundNode = some 0 := by
    intro l
    induction l with
    | nil => intro m _ hm; exact hm
    | cons p t ih =>
      intro m hl hm
      rw [List.foldl_cons]
      exact ih _ (fun q hq => hl q (List.mem_cons_of_mem _ hq))
        (by rw [mapGet_mapSet_ne _ _ _ _ (hl p (List.mem_cons_self _ _))]; exact hm)
  refine this _ _ ?_ base
  intro p hp
  have : p.2 ∈ unknownNodes c := enumFrom_mem_snd hp
  have := List.of_mem_filter this
  simpa using this

theorem getLast?_append_right {α : Type _} (l1 : List α) {l2 : List α} {a : α}
    (h : l2.getLast? = some a) : (l1 ++ l2).getLast? = some a := by
  rw [List.getLast?_append, h]
  rfl

theorem verificationEquations_getLast (rs : List ComponentResult) :
    (verificationEquations rs).getLast? =
      some (if totalPowerSupplied rs - totalPowerDissipated rs < 1 / 1000
        then "✓ Balance de energía verificado" else "⚠ Revisar balance de energía") := by
  unfold verificationEquations
  repeat
    first
      | rfl
      | apply getLast?_append_right

theorem filter_removeCS_type (ty : ComponentType)
    (hty : ty ≠ ComponentType.CurrentSource) (l : List Component) :
    (l.filter (fun comp => comp.type ≠ ComponentType.CurrentSource)).filter
        (fun comp => comp.type = ty) =
      l.filter (fun comp => comp.type = ty) := by
  induction l with
  | nil => rfl
  | cons a t ih =>
    by_cases hcs : a.type = ComponentType.CurrentSource
    · have h1 : (a :: t).filter (fun comp => comp.type ≠ ComponentType.CurrentSource) =
          t.filter (fun comp => comp.type ≠ ComponentType.CurrentSource) := by
        rw [List.filter_cons, if_neg (by simp [hcs])]
      have h2 : (a :: t).filter (fun comp => comp.type = ty) =
          t.filter (fun comp => comp.type = ty) := by
        rw [List.filter_cons,
          if_neg (by simp only [hcs, decide_eq_true_eq]; exact fun he => hty he.symm)]
      rw [h1, h2, ih]
    · have h1 : (a :: t).filter (fun comp => comp.type ≠ ComponentType.CurrentSource) =
          a :: t.filter (fun comp => comp.type ≠ ComponentType.CurrentSource) := by
        rw [List.filter_cons, if_pos (by simp [hcs])]
      rw [h1]
      by_cases ha : a.type = ty
      · rw [List.filter_cons, if_pos (by simp [ha]), List.filter_cons,
          if_pos (by simp [ha]), ih]
      · rw [List.filter_cons, if_neg (by simp [ha]), List.filter_cons,
          if_neg (by simp [ha]), ih]

theorem resistors_removeCS (c : Circuit) : resistors (removeCS c) = resistors c :=
  filter_removeCS_type ComponentType.Resistor (by decide) c.components

theorem voltageSources_removeCS (c : Circuit) :
    voltageSources (removeCS c) = voltageSources c :=
  filter_removeCS_type ComponentType.VoltageSource (by decide) c.components

theorem conductances_removeCS (c : Circuit) :
    conductances (removeCS c) = conductances c := by
  unfold conductances
  rw [resistors_removeCS]

theorem unknownNodes_removeCS (c : Circuit) :
    unknownNodes (removeCS c) = unknownNodes c := rfl

theorem numNodes_removeCS (c : Circuit) : numNodes (removeCS c) = numNodes c := rfl

theorem nodeIdx_removeCS (c : Circuit) : nodeIdx (removeCS c) = nodeIdx c := rfl

theorem stampConductanceStep_removeCS (c : Circuit) :
    stampConductanceStep (removeCS c) = stampConductanceStep c := by
  funext idx nid m cg
  unfold stampConductanceStep
  simp only [nodeIdx_removeCS]

theorem stampConductances_removeCS (c : Circuit) :
    stampConductances (removeCS c) = stampConductances c := by
  funext idx nid m
  unfold stampConductances
  rw [conductances_removeCS, stampConductanceStep_removeCS]

theorem stampVSColStep_removeCS (c : Circuit) :
    stampVSColStep (removeCS c) = stampVSColStep c := by
  funext idx nid m p
  unfold stampVSColStep
  simp only [numNodes_removeCS]

theorem stampVSCols_removeCS (c : Circuit) :
    stampVSCols (removeCS c) = stampVSCols c := by
  funext idx nid m
  unfold stampVSCols
  rw [voltageSources_removeCS, stampVSColStep_removeCS]

theorem stampVSRowStep_removeCS (c : Circuit) :
    stampVSRowStep (removeCS c) = stampVSRowStep c := by
  funext m p
  unfold stampVSRowStep
  simp only [numNodes_removeCS, nodeIdx_removeCS]

theorem stampVSRows_removeCS (c : Circuit) :
    stampVSRows (removeCS c) = stampVSRows c := by
  funext m
  unfold stampVSRows
  rw [voltageSources_removeCS, stampVSRowStep_removeCS]

theorem stampNode_removeCS (c : Circuit) : stampNode (removeCS c) = stampNode c := by
  funext m p
  unfold stampNode
  rw [stampVSCols_removeCS, stampConductances_removeCS]

theorem matrixSize_removeCS (c : Circuit) : matrixSize (removeCS c) = matrixSize c := by
  unfold matrixSize
  rw [voltageSources_removeCS, numNodes_removeCS]

theorem buildA_removeCS (c : Circuit) : buildA (removeCS c) = buildA c := by
  unfold buildA
  rw [stampVSRows_removeCS, unknownNodes_removeCS, stampNode_removeCS,
    matrixSize_removeCS]

theorem buildb_removeCS (c : Circuit) : buildb (removeCS c) = buildb c := by
  unfold buildb
  rw [voltageSources_removeCS, numNodes_removeCS]

theorem componentResultOf_removeCS (c : Circuit) :
    componentResultOf (removeCS c) = componentResultOf c := by
  funext v x comp
  unfold componentResultOf
  rw [voltageSources_removeCS]
  simp only [numNodes_removeCS]

theorem map_filter_type (f : Component → ComponentResult)
    (hf : ∀ comp, (f comp).type = comp.type) (ty : ComponentType)
    (hty : ty ≠ ComponentType.CurrentSource) (l : List Component) :
    ((l.filter (fun comp => comp.type ≠ ComponentType.CurrentSource)).map f).filter
        (fun r => r.type = ty) =
      (l.map f).filter (fun r => r.type = ty) := by
  induction l with
  | nil => rfl
  | cons a t ih =>
    by_cases hcs : a.type = ComponentType.CurrentSource
    · have h1 : (a :: t).filter (fun comp => comp.type ≠ ComponentType.CurrentSource) =
          t.filter (fun comp => comp.type ≠ ComponentType.CurrentSource) := by
        rw [List.filter_cons, if_neg (by simp [hcs])]
      have h2 : ((f a :: t.map f).filter (fun r => r.type = ty)) =
          (t.map f).filter (fun r => r.type = ty) := by
        rw [List.filter_cons,
          if_neg (by simp only [hf a, hcs, decide_eq_true_eq]; exact fun he => hty he.symm)]
      rw [h1, List.map_cons, h2, ih]
    · have h1 : (a :: t).filter (fun comp => comp.type ≠ ComponentType.CurrentSource) =
          a :: t.filter (fun comp => comp.type ≠ ComponentType.CurrentSource) := by
        rw [List.filter_cons, if_pos (by simp [hcs])]
      rw [h1, List.map_cons, List.map_cons]
      by_cases ha : (f a).type = ty
      · rw [List.filter_cons, if_pos (by simp [ha]), List.filter_cons,
          if_pos (by simp [ha]), ih]
      · rw [List.filter_cons, if_neg (by simp [ha]), List.filter_cons,
          if_neg (by simp [ha]), ih]

theorem dissipated_removeCS (c : Circuit) (v : List (String × ℚ)) (x : List ℚ) :
    totalPowerDissipated (componentResultsOf (removeCS c) v x) =
      totalPowerDissipated (componentResultsOf c v x) := by
  unfold totalPowerDissipated componentResultsOf
  rw [componentResultOf_removeCS,
    show (removeCS c).components =
      c.components.filter (fun comp => comp.type ≠ ComponentType.CurrentSource) from rfl,
    map_filter_type (componentResultOf c v x) (fun comp => rfl) _ (by decide)]

theorem supplied_removeCS (c : Circuit) (v : List (String × ℚ)) (x : List ℚ) :
    totalPowerSupplied (componentResultsOf (removeCS c) v x) =
      totalPowerSupplied (componentResultsOf c v x) := by
  unfold totalPowerSupplied componentResultsOf
  rw [componentResultOf_removeCS,
    show (removeCS c).components =
      c.components.filter (fun comp => comp.type ≠ ComponentType.CurrentSource) from rfl,
    map_filter_type (componentResultOf c v x) (fun comp => rfl) _ (by decide)]

theorem enumFrom_fst_le {α : Type _} {p : ℕ × α} :
    ∀ {i : ℕ} {l : List α}, p ∈ enumFrom i l → i ≤ p.1 := by
  intro i l
  induction l generalizing i with
  | nil => intro h; exact absurd h (by simp [enumFrom])
  | cons a t ih =>
    intro h
    rw [enumFrom] at h
    rcases List.mem_cons.mp h with h1 | h2
    · rw [h1]
    · exact Nat.le_of_succ_le (ih h2)

theorem enumFrom_mem_get {α : Type _} {k : ℕ} {a : α} :
    ∀ {i : ℕ} {l : List α}, (k, a) ∈ enumFrom i l → l.get? (k - i) = some a := by
  intro i l
  induction l generalizing i k with
  | nil => intro h; exact absurd h (by simp [enumFrom])
  | cons b t ih =>
    intro h
    rw [enumFrom] at h
    rcases List.mem_cons.mp h with h1 | h2
    · injection h1 with hk hb
      subst hk
      subst hb
      simp [Nat.sub_self]
    · have hle : i + 1 ≤ k := enumFrom_fst_le h2
      have := ih h2
      have hgap : k - i = (k - (i + 1)) + 1 := by omega
      rw [hgap]
      simpa using this

theorem nodeIdx_some {c : Circuit} {u : String} {k : ℕ} (h : nodeIdx c u = some k) :
    ∃ n, (unknownNodes c).get? k = some n ∧ n.id = u := by
  unfold nodeIdx at h
  rcases hlast : ((enumFrom 0 (unknownNodes c)).filter (fun p => p.2.id = u)).getLast?
    with _ | p
  · rw [hlast] at h; exact absurd h (by simp)
  · rw [hlast] at h
    have hp1 : p.1 = k := by simpa using h
    have hmem := List.mem_of_getLast?_eq_some hlast
    have hfil := List.mem_filter.mp hmem
    have hid : p.2.id = u := by simpa using hfil.2
    have hget : (unknownNodes c).get? (p.1 - 0) = some p.2 := by
      have : (p.1, p.2) ∈ enumFrom 0 (unknownNodes c) := hfil.1
      exact enumFrom_mem_get this
    refine ⟨p.2, ?_, hid⟩
    rw [← hp1]
    simpa using hget

theorem nodeIdx_inj_at {c : Circuit} {s u : String} {k : ℕ}
    (hs : nodeIdx c s = some k) (hu : nodeIdx c u = some k) : u = s := by
  obtain ⟨n1, hg1, hid1⟩ := nodeIdx_some hs
  obtain ⟨n2, hg2, hid2⟩ := nodeIdx_some hu
  rw [hg1] at hg2
  rw [← hid2, ← Option.some.inj hg2]
  exact hid1

theorem nodeIdx_ne_ground {c : Circuit} {u : String} {k : ℕ}
    (h : nodeIdx c u = some k) : u ≠ groundNode := by
  obtain ⟨n, hg, hid⟩ := nodeIdx_some h
  have hmem : n ∈ unknownNodes c := List.get?_mem hg
  have := (List.mem_filter.mp hmem).2
  rw [← hid]
  simpa using this

theorem nodeIdx_lt {c : Circuit} {u : String} {k : ℕ}
    (h : nodeIdx c u = some k) : k < numNodes c := by
  obtain ⟨n, hg, _⟩ := nodeIdx_some h
  obtain ⟨hlt, _⟩ := List.get?_eq_some.mp hg
  exact hlt

theorem enum_decomp {α : Type _} {n : α} :
    ∀ {l : List α} {k : ℕ}, l.get? k = some n → ∀ i, ∃ l1 l2,
      enumFrom i l = l1 ++ (i + k, n) :: l2 ∧
      (∀ p ∈ l1, p.1 < i + k) ∧ (∀ p ∈ l2, i + k < p.1) := by
  intro l
  induction l with
  | nil => intro k h; exact absurd h (by simp)
  | cons a t ih =>
    intro k h i
    cases k with
    | zero =>
      refine ⟨[], enumFrom (i + 1) t, ?_, by simp, ?_⟩
      · have ha : a = n := by simpa using h
        rw [enumFrom, ha]
        simp
      · intro p hp
        have := enumFrom_fst_le hp
        omega
    | succ k' =>
      have ht : t.get? k' = some n := by simpa using h
      obtain ⟨l1, l2, heq, hl1, hl2⟩ := ih ht (i + 1)
      refine ⟨(i, a) :: l1, l2, ?_, ?_, ?_⟩
      · rw [enumFrom, heq]
        have : i + 1 + k' = i + (k' + 1) := by omega
        rw [this]
        simp
      · intro p hp
        rcases List.mem_cons.mp hp with h1 | h2
        · rw [h1]; omega
        · have := hl1 p h2; omega
      · intro p hp
        have := hl2 p hp; omega

/-! ### Frame lemmas: which entries each stamping pass can touch -/

theorem stampConductanceStep_data_ne (c : Circuit) (idx : ℕ) (nid : String)
    (m : Matrix) (cg : Component × ℚ) {i j : ℕ} (hne : i ≠ idx) :
    (stampConductanceStep c idx nid m cg).data i j = m.data i j := by
  simp only [stampConductanceStep]
  split
  · split <;> split
    · simp [Matrix.add, hne]
    · rcases nodeIdx c cg.1.nodes.2 with _ | oi <;> simp [Matrix.add, hne]
    · simp [Matrix.add, hne]
    · rcases nodeIdx c cg.1.nodes.1 with _ | oi <;> simp [Matrix.add, hne]
  · rfl

theorem stampConductances_data_ne (c : Circuit) (idx : ℕ) (nid : String)
    {i j : ℕ} (hne : i ≠ idx) (m : Matrix) :
    (stampConductances c idx nid m).data i j = m.data i j := by
  unfold stampConductances
  generalize conductances c = l
  induction l generalizing m with
  | nil => rfl
  | cons cg t ih =>
    rw [List.foldl_cons, ih, stampConductanceStep_data_ne c idx nid m cg hne]

theorem stampVSColStep_data_lt (c : Circuit) (idx : ℕ) (nid : String)
    (m : Matrix) (p : ℕ × Component) {i j : ℕ} (hj : j < numNodes c) :
    (stampVSColStep c idx nid m p).data i j = m.data i j := by
  have hcol : j ≠ numNodes c + p.1 := by omega
  simp only [stampVSColStep]
  split
  · simp [Matrix.set, hcol]
  · split
    · simp [Matrix.set, hcol]
    · rfl

theorem stampVSCols_data_lt (c : Circuit) (idx : ℕ) (nid : String)
    {i j : ℕ} (hj : j < numNodes c) (m : Matrix) :
    (stampVSCols c idx nid m).data i j = m.data i j := by
  unfold stampVSCols
  generalize enumFrom 0 (voltageSources c) = l
  induction l generalizing m with
  | nil => rfl
  | cons p t ih =>
    rw [List.foldl_cons, ih, stampVSColStep_data_lt c idx nid m p hj]

theorem stampVSRowStep_data_lt (c : Circuit) (m : Matrix) (p : ℕ × Component)
    {i j : ℕ} (hi : i < numNodes c) :
    (stampVSRowStep c m p).data i j = m.data i j := by
  have hrow : i ≠ numNodes c + p.1 := by omega
  simp only [stampVSRowStep]
  split
  · simp [Matrix.set, hrow]
  · simp [Matrix.set, hrow]
  · simp [Matrix.set, hrow]
  · rfl

theorem stampVSRows_data_lt (c : Circuit) {i j : ℕ} (hi : i < numNodes c)
    (m : Matrix) : (stampVSRows c m).data i j = m.data i j := by
  unfold stampVSRows
  generalize enumFrom 0 (voltageSources c) = l
  induction l generalizing m with
  | nil => rfl
  | cons p t ih =>
    rw [List.foldl_cons, ih, stampVSRowStep_data_lt c m p hi]

theorem stampNode_data_ne (c : Circuit) (m : Matrix) (p : ℕ × Node)
    {i j : ℕ} (hne : i ≠ p.1) (hj : j < numNodes c) :
    (stampNode c m p).data i j = m.data i j := by
  unfold stampNode
  rw [stampVSCols_data_lt c p.1 p.2.id hj, stampConductances_data_ne c p.1 p.2.id hne]

theorem nodeFold_data_ne (c : Circuit) {i j : ℕ} (hj : j < numNodes c) :
    ∀ (l : List (ℕ × Node)) (m : Matrix), (∀ p ∈ l, p.1 ≠ i) →
      ((l.foldl (stampNode c) m).data i j = m.data i j) := by
  intro l
  induction l with
  | nil => intro m _; rfl
  | cons p t ih =>
    intro m hl
    rw [List.foldl_cons, ih _ (fun q hq => hl q (List.mem_cons_of_mem _ hq)),
      stampNode_data_ne c m p (fun he => hl p (List.mem_cons_self _ _) he.symm) hj]

/-! ### Entry characterization of the conductance stamps -/

theorem connectsB_eq_true_iff (x : Component) (s t : String) :
    connectsB x s t = true ↔
      ((x.nodes.1 = s ∧ x.nodes.2 = t) ∨ (x.nodes.1 = t ∧ x.nodes.2 = s)) := by
  unfold connectsB
  simp

theorem stampConductanceStep_data_off (c : Circuit) {s t : String} {ia ib : ℕ}
    (hs : nodeIdx c s = some ia) (ht : nodeIdx c t = some ib) (hst : s ≠ t)
    (m : Matrix) (cg : Component × ℚ) :
    (stampConductanceStep c ia s m cg).data ia ib =
      m.data ia ib - (if connectsB cg.1 s t then cg.2 else 0) := by
  have hiaib : ia ≠ ib := by
    intro he
    exact hst ((nodeIdx_inj_at hs (he ▸ ht)).symm)
  have htg : t ≠ groundNode := nodeIdx_ne_ground ht
  simp only [stampConductanceStep]
  by_cases hinc : cg.1.nodes.1 = s ∨ cg.1.nodes.2 = s
  · rw [if_pos hinc]
    by_cases hsel : cg.1.nodes.1 = s
    · rw [if_pos hsel]
      have hconn_iff : connectsB cg.1 s t = true ↔ cg.1.nodes.2 = t := by
        rw [connectsB_eq_true_iff]
        constructor
        · rintro (⟨_, h2⟩ | ⟨h1, _⟩)
          · exact h2
          · exact absurd (hsel.symm.trans h1) hst
        · intro h2; exact Or.inl ⟨hsel, h2⟩
      by_cases hg : cg.1.nodes.2 = groundNode
      · rw [if_pos hg]
        have hcon : ¬connectsB cg.1 s t = true := fun hc =>
          htg ((hconn_iff.mp hc) ▸ hg)
        simp [Matrix.add, Ne.symm hiaib, hcon]
      · rw [if_neg hg]
        cases hni : nodeIdx c cg.1.nodes.2 with
        | some oi =>
          by_cases hoi : oi = ib
          · have hot : cg.1.nodes.2 = t := nodeIdx_inj_at ht (hoi ▸ hni)
            have hcon : connectsB cg.1 s t = true := hconn_iff.mpr hot
            subst hoi
            simp [Matrix.add, Ne.symm hiaib, hcon]
            ring
          · have hcon : ¬connectsB cg.1 s t = true := by
              intro hc
              exact hoi (Option.some.inj (by rw [← hni, hconn_iff.mp hc, ht]))
            have hoi2 : ib ≠ oi := fun h => hoi h.symm
            simp [Matrix.add, Ne.symm hiaib, hcon, hoi2]
        | none =>
          have hcon : ¬connectsB cg.1 s t = true := by
            intro hc
            rw [hconn_iff.mp hc, ht] at hni
            exact Option.noConfusion hni
          simp [Matrix.add, Ne.symm hiaib, hcon]
    · rw [if_neg hsel]
      have hn2 : cg.1.nodes.2 = s := hinc.resolve_left hsel
      have hconn_iff : connectsB cg.1 s t = true ↔ cg.1.nodes.1 = t := by
        rw [connectsB_eq_true_iff]
        constructor
        · rintro (⟨h1, _⟩ | ⟨h1, _⟩)
          · exact absurd h1 hsel
          · exact h1
        · intro h1; exact Or.inr ⟨h1, hn2⟩
      by_cases hg : cg.1.nodes.1 = groundNode
      · rw [if_pos hg]
        have hcon : ¬connectsB cg.1 s t = true := fun hc =>
          htg ((hconn_iff.mp hc) ▸ hg)
        simp [Matrix.add, Ne.symm hiaib, hcon]
      · rw [if_neg hg]
        cases hni : nodeIdx c cg.1.nodes.1 with
        | some oi =>
          by_cases hoi : oi = ib
          · have hot : cg.1.nodes.1 = t := nodeIdx_inj_at ht (hoi ▸ hni)
            have hcon : connectsB cg.1 s t = true := hconn_iff.mpr hot
            subst hoi
            simp [Matrix.add, Ne.symm hiaib, hcon]
            ring
          · have hcon : ¬connectsB cg.1 s t = true := by
              intro hc
              exact hoi (Option.some.inj (by rw [← hni, hconn_iff.mp hc, ht]))
            have hoi2 : ib ≠ oi := fun h => hoi h.symm
            simp [Matrix.add, Ne.symm hiaib, hcon, hoi2]
        | none =>
          have hcon : ¬connectsB cg.1 s t = true := by
            intro hc
            rw [hconn_iff.mp hc, ht] at hni
            exact Option.noConfusion hni
          simp [Matrix.add, Ne.symm hiaib, hcon]
  · rw [if_neg hinc]
    have hcon : ¬connectsB cg.1 s t = true := by
      intro hc
      rcases connectsB_eq_true_iff cg.1 s t |>.mp hc with ⟨h1, _⟩ | ⟨_, h2⟩
      · exact hinc (Or.inl h1)
      · exact hinc (Or.inr h2)
    simp [hcon]

theorem stampConductanceStep_data_diag (c : Circuit) {s : String} {ia : ℕ}
    (hs : nodeIdx c s = some ia) (m : Matrix) (cg : Component × ℚ) :
    (stampConductanceStep c ia s m cg).data ia ia =
      m.data ia ia + (if incidentProperB cg.1 s then cg.2 else 0) := by
  have hsg : s ≠ groundNode := nodeIdx_ne_ground hs
  simp only [stampConductanceStep]
  by_cases hinc : cg.1.nodes.1 = s ∨ cg.1.nodes.2 = s
  · rw [if_pos hinc]
    by_cases hsel : cg.1.nodes.1 = s
    · rw [if_pos hsel]
      by_cases hg : cg.1.nodes.2 = groundNode
      · rw [if_pos hg]
        have h2s : cg.1.nodes.2 ≠ s := fun he => hsg (he ▸ hg)
        have hprop : incidentProperB cg.1 s = true := by
          unfold incidentProperB
          simp [hsel, h2s]
        simp [Matrix.add, hprop]
      · rw [if_neg hg]
        cases hni : nodeIdx c cg.1.nodes.2 with
        | some oi =>
          by_cases h2s : cg.1.nodes.2 = s
          · have hoi : oi = ia := Option.some.inj (by rw [← hni, h2s, hs])
            have hprop : ¬incidentProperB cg.1 s = true := by
              unfold incidentProperB
              simp [hsel, h2s]
            simp [Matrix.add, hoi, hprop]
          · have hoi : oi ≠ ia := by
              intro he
              exact h2s (nodeIdx_inj_at hs (he ▸ hni))
            have hprop : incidentProperB cg.1 s = true := by
              unfold incidentProperB
              simp [hsel, h2s]
            have hoi2 : ia ≠ oi := fun h => hoi h.symm
            simp [Matrix.add, hprop, hoi2]
        | none =>
          have h2s : cg.1.nodes.2 ≠ s := by
            intro he
            rw [he, hs] at hni
            exact Option.noConfusion hni
          have hprop : incidentProperB cg.1 s = true := by
            unfold incidentProperB
            simp [hsel, h2s]
          simp [Matrix.add, hprop]
    · rw [if_neg hsel]
      have hn2 : cg.1.nodes.2 = s := hinc.resolve_left hsel
      have hprop : incidentProperB cg.1 s = true := by
        unfold incidentProperB
        simp [hsel, hn2]
      by_cases hg : cg.1.nodes.1 = groundNode
      · rw [if_pos hg]
        simp [Matrix.add, hprop]
      · rw [if_neg hg]
        cases hni : nodeIdx c cg.1.nodes.1 with
        | some oi =>
          have hoi : oi ≠ ia := by
            intro he
            exact hsel (nodeIdx_inj_at hs (he ▸ hni))
          have hoi2 : ia ≠ oi := fun h => hoi h.symm
          simp [Matrix.add, hprop, hoi2]
        | none =>
          simp [Matrix.add, hprop]
  · rw [if_neg hinc]
    have hprop : ¬incidentProperB cg.1 s = true := by
      unfold incidentProperB
      simp only [Bool.and_eq_true, Bool.or_eq_true, beq_iff_eq]
      rintro ⟨h1 | h2, _⟩
      · exact hinc (Or.inl h1)
      · exact hinc (Or.inr h2)
    simp [hprop]

theorem stampConductances_data_off (c : Circuit) {s t : String} {ia ib : ℕ}
    (hs : nodeIdx c s = some ia) (ht : nodeIdx c t = some ib) (hst : s ≠ t) :
    ∀ (l : List (Component × ℚ)) (m : Matrix),
      ((l.foldl (stampConductanceStep c ia s) m).data ia ib) =
        m.data ia ib - ((l.filter (fun cg => connectsB cg.1 s t)).map
          (fun cg => cg.2)).sum := by
  intro l
  induction l with
  | nil => intro m; simp
  | cons cg l ih =>
    intro m
    rw [List.foldl_cons, ih, stampConductanceStep_data_off c hs ht hst m cg,
      List.filter_cons]
    cases hcon : connectsB cg.1 s t
    · simp
    · simp
      ring

theorem stampConductances_data_diag (c : Circuit) {s : String} {ia : ℕ}
    (hs : nodeIdx c s = some ia) :
    ∀ (l : List (Component × ℚ)) (m : Matrix),
      ((l.foldl (stampConductanceStep c ia s) m).data ia ia) =
        m.data ia ia + ((l.filter (fun cg => incidentProperB cg.1 s)).map
          (fun cg => cg.2)).sum := by
  intro l
  induction l with
  | nil => intro m; simp
  | cons cg l ih =>
    intro m
    rw [List.foldl_cons, ih, stampConductanceStep_data_diag c hs m cg,
      List.filter_cons]
    cases hcon : incidentProperB cg.1 s
    · simp
    · simp
      ring

theorem conductances_filter_sum (c : Circuit) (p : Component → Bool) :
    (((conductances c).filter (fun cg => p cg.1)).map (fun cg => cg.2)).sum =
      (((resistors c).filter p).map Gof).sum := by
  unfold conductances
  rw [List.filter_map, List.map_map]
  rfl

theorem buildA_data_off (c : Circuit) {s t : String} {ia ib : ℕ}
    (hs : nodeIdx c s = some ia) (ht : nodeIdx c t = some ib) (hst : s ≠ t) :
    (buildA c).data ia ib = -(GsumBetween c s t) := by
  have hia := nodeIdx_lt hs
  have hib := nodeIdx_lt ht
  obtain ⟨n, hget0, hid⟩ := nodeIdx_some hs
  obtain ⟨l1, l2, hdecomp, hl1, hl2⟩ := enum_decomp hget0 0
  simp only [Nat.zero_add] at hdecomp hl1 hl2
  unfold buildA
  rw [stampVSRows_data_lt c hia, hdecomp, List.foldl_append, List.foldl_cons,
    nodeFold_data_ne c hib l2 _ (fun p hp => Nat.ne_of_gt (hl2 p hp)),
    stampNode, stampVSCols_data_lt c ia n.id hib, hid, stampConductances,
    stampConductances_data_off c hs ht hst (conductances c) _,
    nodeFold_data_ne c hib l1 _ (fun p hp => Nat.ne_of_lt (hl1 p hp))]
  have hnew : (Matrix.new (matrixSize c) (matrixSize c)).data ia ib = 0 := rfl
  rw [hnew]
  unfold GsumBetween
  rw [conductances_filter_sum c (fun x => connectsB x s t)]
  ring

theorem buildA_data_diag (c : Circuit) {s : String} {ia : ℕ}
    (hs : nodeIdx c s = some ia) :
    (buildA c).data ia ia = GdiagSum c s := by
  have hia := nodeIdx_lt hs
  obtain ⟨n, hget0, hid⟩ := nodeIdx_some hs
  obtain ⟨l1, l2, hdecomp, hl1, hl2⟩ := enum_decomp hget0 0
  simp only [Nat.zero_add] at hdecomp hl1 hl2
  unfold buildA
  rw [stampVSRows_data_lt c hia, hdecomp, List.foldl_append, List.foldl_cons,
    nodeFold_data_ne c hia l2 _ (fun p hp => Nat.ne_of_gt (hl2 p hp)),
    stampNode, stampVSCols_data_lt c ia n.id hia, hid, stampConductances,
    stampConductances_data_diag c hs (conductances c) _,
    nodeFold_data_ne c hia l1 _ (fun p hp => Nat.ne_of_lt (hl1 p hp))]
  have hnew : (Matrix.new (matrixSize c) (matrixSize c)).data ia ia = 0 := rfl
  rw [hnew]
  unfold GdiagSum
  rw [conductances_filter_sum c (fun x => incidentProperB x s)]
  ring

theorem GsumBetween_symm (c : Circuit) (s t : String) :
    GsumBetween c t s = GsumBetween c s t := by
  unfold GsumBetween
  have : (resistors c).filter (fun x => connectsB x t s) =
      (resistors c).filter (fun x => connectsB x s t) := by
    apply List.filter_congr
    intro x _
    unfold connectsB
    rw [Bool.or_comm]
  rw [this]

theorem sum_filter_eraseOnce {α : Type _} [DecidableEq α] (f : α → ℚ) (p : α → Bool)
    {x : α} : ∀ {l : List α}, x ∈ l → p x = true →
    ((l.filter p).map f).sum = f x + (((eraseOnce l x).filter p).map f).sum := by
  intro l
  induction l with
  | nil => intro h; exact absurd h (by simp)
  | cons a t ih =>
    intro hmem hpx
    by_cases hax : a = x
    · subst hax
      rw [eraseOnce, if_pos rfl, List.filter_cons, if_pos hpx, List.map_cons,
        List.sum_cons]
    · rw [eraseOnce, if_neg hax]
      have hmem' : x ∈ t := by
        rcases List.mem_cons.mp hmem with h | h
        · exact absurd h.symm hax
        · exact h
      by_cases hpa : p a = true
      · rw [List.filter_cons, if_pos hpa, List.filter_cons, if_pos hpa,
          List.map_cons, List.sum_cons, List.map_cons, List.sum_cons, ih hmem' hpx]
        ring
      · rw [List.filter_cons, if_neg hpa, List.filter_cons, if_neg hpa,
          ih hmem' hpx]

theorem connectsB_of_nodes {r : Component} {s t : String}
    (h : r.nodes = (s, t) ∨ r.nodes = (t, s)) : connectsB r s t = true := by
  unfold connectsB
  rcases h with h | h <;> simp [h]

theorem incidentProperB_of_nodes {r : Component} {s t : String} (hst : s ≠ t)
    (h : r.nodes = (s, t) ∨ r.nodes = (t, s)) : incidentProperB r s = true := by
  unfold incidentProperB
  rcases h with h | h <;> simp [h, hst, Ne.symm hst]

/-! ### Symbolic evaluation of the single-node divider `divC R` -/

theorem analyze_of_solve {c : Circuit} {x : List ℚ} {ss : List (String × String)}
    (h : ((buildA c).solve (buildb c)).1 = (some x, ss)) :
    analyzeNodalMethod c = AnalysisResult.ok (voltagesOf c x)
      (componentResultsOf c (voltagesOf c x) x)
      (preSolveSteps c ++
        [step5 ss, step6 c x, step7 (voltagesOf c x) (componentResultsOf c (voltagesOf c x) x),
         step8 (componentResultsOf c (voltagesOf c x) x)]) := by
  unfold analyzeNodalMethod
  rw [h]

theorem divC_rows (R : ℚ) : (buildA (divC R)).rows = 2 := rfl

theorem divC_b (R : ℚ) : buildb (divC R) = [0, 12] := rfl

theorem divC_d00 (R : ℚ) : (buildA (divC R)).data 0 0 = 1 / R := by
  norm_num [show (buildA (divC R)).data 0 0 = 0 + 1 / (R * 1) from rfl]

theorem divC_d01 (R : ℚ) : (buildA (divC R)).data 0 1 = 1 := rfl

theorem divC_d10 (R : ℚ) : (buildA (divC R)).data 1 0 = 1 := rfl

theorem divC_d11 (R : ℚ) : (buildA (divC R)).data 1 1 = 0 := rfl

theorem divC_backSub_gt (R : ℚ) :
    backSub 2 [[1, 0, 12], [0, 1, -12/R]] = [12, -12/R] := by
  norm_num [backSub, getE, List.range_succ,
    show List.replicate 2 (0:ℚ) = [0, 0] from rfl]

theorem divC_backSub_le (R : ℚ) (hR0 : R ≠ 0) :
    backSub 2 [[1/R, 1, 0], [0, -R, 12]] = [12, -12/R] := by
  norm_num [backSub, getE, List.range_succ,
    show List.replicate 2 (0:ℚ) = [0, 0] from rfl]
  constructor
  · field_simp
  · rw [div_neg, neg_div]

theorem divC_fe_of_gt (R : ℚ) (hRpos : 0 < R) (hgt : 1 < R) (hbig : R < 10 ^ 10) :
    ∀ steps, (forwardElim 2 2 0 [[1/R, 1, 0], [1, 0, 12]] steps).1 =
      some [[1, 0, 12], [0, 1, -12/R]] := by
  intro steps
  have hinv_pos : (0:ℚ) < R⁻¹ := by positivity
  have habs : |R⁻¹| = R⁻¹ := abs_of_pos hinv_pos
  have hsel : R⁻¹ < 1 := inv_lt_one_of_one_lt₀ hgt
  have hfac : (1:ℚ)/10000000000 < R⁻¹ := by
    rw [inv_eq_one_div, div_lt_div_iff₀ (by norm_num) hRpos]
    nlinarith
  simp only [forwardElim]
  norm_num [getE, swapRows, rowOp, enumFrom, tol, hsel, habs, hfac,
    show ([1, 0, 12] : List ℚ)[1] = 0 from rfl]
  ring

theorem divC_fe_of_le (R : ℚ) (hRpos : 0 < R) (hle : R ≤ 1)
    (hsmall : 1/10^10 < R) :
    ∀ steps, (forwardElim 2 2 0 [[1/R, 1, 0], [1, 0, 12]] steps).1 =
      some [[1/R, 1, 0], [0, -R, 12]] := by
  intro steps
  have hinv_pos : (0:ℚ) < R⁻¹ := by positivity
  have hone : (1:ℚ) ≤ R⁻¹ := (one_le_inv₀ hRpos).2 hle
  have habs : |R⁻¹| = R⁻¹ := abs_of_pos hinv_pos
  have habsR : |R| = R := abs_of_pos hRpos
  have hsel : ¬(R⁻¹ < 1) := not_lt.mpr hone
  have hpiv : ¬(R⁻¹ < 1/10000000000) := not_lt.mpr (le_trans (by norm_num) hone)
  have hfacR : (1:ℚ)/10000000000 < R := by nlinarith
  have hfacR2 : ¬(R < 1/10000000000) := not_lt.mpr (le_of_lt hfacR)
  have hcancel : R * R⁻¹ = 1 := mul_inv_cancel₀ (ne_of_gt hRpos)
  simp only [forwardElim]
  norm_num [getE, swapRows, rowOp, enumFrom, tol, hsel, habs, habsR, hpiv, hfacR,
    hfacR2, hcancel]

theorem divC_solve (R : ℚ) (h0 : 1/10^10 < R) (h1 : R < 10^10) :
    ((buildA (divC R)).solve (buildb (divC R))).1.1 = some [12, -12/R] := by
  have hRpos : 0 < R := lt_trans (by positivity) h0
  have hR0 : R ≠ 0 := ne_of_gt hRpos
  simp only [Matrix.solve, divC_rows]
  have haug : (List.range 2).map (fun i =>
      (List.range 2).map (fun j => (buildA (divC R)).data i j) ++
        [(buildb (divC R)).getD i 0]) = [[1/R, 1, 0], [1, 0, 12]] := by
    rw [show List.range 2 = [0, 1] from rfl]
    simp [divC_d00, divC_d01, divC_d10, divC_d11, divC_b]
  rw [haug]
  rcases le_or_lt R 1 with hle | hgt
  · rcases hres : forwardElim 2 2 0 [[1/R, 1, 0], [1, 0, 12]]
        [("Matriz aumentada inicial:", formatAugmented [[1/R, 1, 0], [1, 0, 12]])]
      with ⟨sol, st⟩
    have hsol : sol = some [[1/R, 1, 0], [0, -R, 12]] := by
      have := divC_fe_of_le R hRpos hle h0
        [("Matriz aumentada inicial:", formatAugmented [[1/R, 1, 0], [1, 0, 12]])]
      rw [hres] at this
      exact this
    subst hsol
    simp only []
    rw [divC_backSub_le R hR0]
  · rcases hres : forwardElim 2 2 0 [[1/R, 1, 0], [1, 0, 12]]
        [("Matriz aumentada inicial:", formatAugmented [[1/R, 1, 0], [1, 0, 12]])]
      with ⟨sol, st⟩
    have hsol : sol = some [[1, 0, 12], [0, 1, -12/R]] := by
      have := divC_fe_of_gt R hRpos hgt h1
        [("Matriz aumentada inicial:", formatAugmented [[1/R, 1, 0], [1, 0, 12]])]
      rw [hres] at this
      exact this
    subst hsol
    simp only []
    rw [divC_backSub_gt R]

/-! ## Claim theorems -/

/-- C1 (corrected): for the one-node divider with a 12 V source and a
resistor of `R` base ohms, whenever `10^-10 < R < 10^10` the analysis
succeeds, the solved potential at `n1` is exactly 12 and the source branch
current is exactly `-12/R`. Outside this range the solver's 1e-10
tolerance intervenes: at `R = 10^10` the elimination factor is skipped
(current 0), and at `R ≤ 10^-10` the system is reported singular. -/
theorem C1_divider (R : ℚ) (h0 : 1/10^10 < R) (h1 : R < 10^10) :
    (analyzeNodalMethod (divC R)).voltageAt "n1" = some 12 ∧
    (analyzeNodalMethod (divC R)).currentOf "V1" = some (-12 / R) := by
  have hsol := divC_solve R h0 h1
  rcases hs : ((buildA (divC R)).solve (buildb (divC R))).1 with ⟨sol, ss⟩
  rw [hs] at hsol
  have hsol' : sol = some [12, -12/R] := hsol
  subst hsol'
  rw [analyze_of_solve hs]
  constructor
  · simp [AnalysisResult.voltageAt, voltagesOf, divC, unknownNodes, groundNode, enumFrom,
      mapSet, mapGet]
  · simp [AnalysisResult.currentOf, componentResultsOf, componentResultOf, divC,
      voltageSources, numNodes, unknownNodes, groundNode, enumFrom, mapSet, mapGet,
      convertToOhms]

/-- C1, witness: at `R = 2` ohms the divider reports 12 V and −6 A. -/
theorem C1_witness :
    ((1:ℚ)/10^10 < 2 ∧ (2:ℚ) < 10^10) ∧
    ((analyzeNodalMethod (divC 2)).voltageAt "n1" = some 12 ∧
      (analyzeNodalMethod (divC 2)).currentOf "V1" = some (-12 / 2)) :=
  ⟨⟨by norm_num, by norm_num⟩, C1_divider 2 (by norm_num) (by norm_num)⟩

/-- C1, counterexample: at `R = 10^10` ohms the analysis still succeeds but
the factor-skip tolerance makes the reported source branch current `0`, not
`-12/R`, refuting the claim for arbitrary resistance. -/
theorem C1_counterexample :
    (analyzeNodalMethod (divC (10 ^ 10))).isOk = true ∧
    (analyzeNodalMethod (divC (10 ^ 10))).currentOf "V1" = some 0 ∧
    (0 : ℚ) ≠ -12 / 10 ^ 10 := by
  refine ⟨by decide, by decide, by norm_num⟩

/-- C2, counterexample: on the claim's circuit (which lists a node `n3`
touched by no component) the assembled system is singular, so the analysis
fails instead of succeeding. -/
theorem C2_counterexample :
    (analyzeNodalMethod c2bad).isOk = false := by decide

/-- C2 (corrected): on the ladder without the floating node `n3` — the
source's own Ejercicio 2 — the analysis succeeds, `V(n1) = 10` exactly, and
`V(n2) = 3.75` agrees with the parallel-divider closed form
`10·(R2‖R3)/(R1 + R2‖R3)` to 4-decimal tolerance. -/
theorem C2_ladder_divider :
    (analyzeNodalMethod c2good).voltageAt "n1" = some 10 ∧
    (analyzeNodalMethod c2good).voltageAt "n2" = some (15 / 4) ∧
    |(15 / 4 : ℚ) - 10 * ((3000 * 2000 / (3000 + 2000)) /
      (2000 + 3000 * 2000 / (3000 + 2000)))| < 1 / 10 ^ 4 := by
  refine ⟨by decide, by decide, by norm_num⟩

/-- C3, counterexample: on `c3x` the reported supplied-minus-dissipated
difference is exactly `0.001`, whose absolute value does not exceed `0.001`,
yet the verification step ends with the fail marker — refuting the claimed
iff against `|difference| > 0.001`. -/
theorem C3_counterexample :
    (analyzeNodalMethod c3x).lastMarker = some "⚠ Revisar balance de energía" ∧
    |(analyzeNodalMethod c3x).suppliedOf - (analyzeNodalMethod c3x).dissipatedOf| ≤
      1 / 1000 := by
  refine ⟨by decide, by decide⟩

/-- C4, counterexample: on the singular circuit `c4x` the solver had already
produced a step record (the initial augmented matrix), yet the failure
output holds exactly the four assembly-phase records and no elimination
record, refuting "the failure output contains every step record produced
before the failure, including the solver's". -/
theorem C4_counterexample :
    stepTitles (analyzeNodalMethod c4x) =
      ["1. IDENTIFICACIÓN Y ANÁLISIS DEL CIRCUITO", "2. CONVERSIÓN A CONDUCTANCIAS",
       "3. PLANTEAMIENTO DE ECUACIONES NODALES", "4. SISTEMA MATRICIAL [A][x] = [b]"] ∧
    (((buildA c4x).solve (buildb c4x)).1.2).length = 1 ∧
    "5. RESOLUCIÓN POR ELIMINACIÓN GAUSSIANA" ∉ stepTitles (analyzeNodalMethod c4x) := by
  refine ⟨by decide, by decide, by decide⟩

/-- C4 (corrected): when the solver reports a singular system, the analysis
returns the failure indicator carrying exactly the four assembly-phase step
records produced before the solve; the solver's internal elimination records
are discarded, and no solution vector or component results are returned
(back substitution is never reached on this path). -/
theorem C4_singular_trace (c : Circuit)
    (h : (((buildA c).solve (buildb c)).1).1 = none) :
    analyzeNodalMethod c =
      AnalysisResult.error "El sistema no tiene solución única" (preSolveSteps c) := by
  unfold analyzeNodalMethod
  rcases hs : ((buildA c).solve (buildb c)).1 with ⟨sol, ss⟩
  rw [hs] at h
  cases sol with
  | none => rfl
  | some x => exact Option.noConfusion h

/-- C4, witness: the floating-resistor circuit `c4w` is singular and gets
exactly the assembly-phase failure trace. -/
theorem C4_witness :
    (((buildA c4w).solve (buildb c4w)).1).1 = none ∧
    analyzeNodalMethod c4w =
      AnalysisResult.error "El sistema no tiene solución única" (preSolveSteps c4w) :=
  ⟨by decide, C4_singular_trace c4w (by decide)⟩

/-- C5 (confirmed): for a resistor between two distinct non-ground nodes
`s` (row `ia`) and `t` (row `ib`), the assembled matrix satisfies
`A[ia][ib] = A[ib][ia] = −(sum of conductances of the resistors joining s
and t)`, that sum contains this resistor's own `+G`, and each diagonal entry
equals the incident-conductance sum, which again contains this resistor's
`+G` contribution. -/
theorem C5_resistor_stamp (c : Circuit) (r : Component) (s t : String) (ia ib : ℕ)
    (hr : r ∈ c.components) (hty : r.type = ComponentType.Resistor)
    (hnodes : r.nodes = (s, t) ∨ r.nodes = (t, s)) (hst : s ≠ t)
    (hs : nodeIdx c s = some ia) (ht : nodeIdx c t = some ib) :
    (buildA c).data ia ib = -(GsumBetween c s t) ∧
    (buildA c).data ib ia = (buildA c).data ia ib ∧
    GsumBetween c s t = Gof r + GsumBetweenExcept c r s t ∧
    ((buildA c).data ia ia = GdiagSum c s ∧
      GdiagSum c s = Gof r + GdiagSumExcept c r s) ∧
    ((buildA c).data ib ib = GdiagSum c t ∧
      GdiagSum c t = Gof r + GdiagSumExcept c r t) := by
  have hres : r ∈ resistors c := List.mem_filter.mpr ⟨hr, by simp [hty]⟩
  have h1 := buildA_data_off c hs ht hst
  have h2 := buildA_data_off c ht hs (Ne.symm hst)
  refine ⟨h1, ?_, ?_, ⟨buildA_data_diag c hs, ?_⟩, ⟨buildA_data_diag c ht, ?_⟩⟩
  · rw [h1, h2, GsumBetween_symm]
  · unfold GsumBetween GsumBetweenExcept
    exact sum_filter_eraseOnce Gof _ hres (connectsB_of_nodes hnodes)
  · unfold GdiagSum GdiagSumExcept
    exact sum_filter_eraseOnce Gof _ hres (incidentProperB_of_nodes hst hnodes)
  · unfold GdiagSum GdiagSumExcept
    exact sum_filter_eraseOnce Gof _ hres
      (incidentProperB_of_nodes (Ne.symm hst) hnodes.symm)

/-- C5, witness: the 70 kΩ resistor of `c3x` joins `n1` (row 0) and `n2`
(row 1); its stamps appear with the claimed signs and symmetry. -/
theorem C5_witness :
    (⟨"R1", ComponentType.Resistor, ("n1", "n2"), 70000, "Ω"⟩ : Component) ∈
        c3x.components ∧
    nodeIdx c3x "n1" = some 0 ∧ nodeIdx c3x "n2" = some 1 ∧
    ((buildA c3x).data 0 1 = -(GsumBetween c3x "n1" "n2") ∧
     (buildA c3x).data 1 0 = (buildA c3x).data 0 1 ∧
     GsumBetween c3x "n1" "n2" =
       Gof ⟨"R1", ComponentType.Resistor, ("n1", "n2"), 70000, "Ω"⟩ +
         GsumBetweenExcept c3x ⟨"R1", ComponentType.Resistor, ("n1", "n2"), 70000, "Ω"⟩
           "n1" "n2" ∧
     ((buildA c3x).data 0 0 = GdiagSum c3x "n1" ∧
       GdiagSum c3x "n1" =
         Gof ⟨"R1", ComponentType.Resistor, ("n1", "n2"), 70000, "Ω"⟩ +
           GdiagSumExcept c3x ⟨"R1", ComponentType.Resistor, ("n1", "n2"), 70000, "Ω"⟩
             "n1") ∧
     ((buildA c3x).data 1 1 = GdiagSum c3x "n2" ∧
       GdiagSum c3x "n2" =
         Gof ⟨"R1", ComponentType.Resistor, ("n1", "n2"), 70000, "Ω"⟩ +
           GdiagSumExcept c3x ⟨"R1", ComponentType.Resistor, ("n1", "n2"), 70000, "Ω"⟩
             "n2")) :=
  ⟨by decide, by decide, by decide,
   C5_resistor_stamp c3x ⟨"R1", ComponentType.Resistor, ("n1", "n2"), 70000, "Ω"⟩
     "n1" "n2" 0 1 (by decide) (by decide) (Or.inl rfl) (by decide)
     (by decide) (by decide)⟩

/-- C6 (confirmed): `Matrix.solve` returns the receiver unchanged — the
elimination operates on the augmented copy built from `this.data`, and the
caller's matrix entries after the call are those before it. -/
theorem C6_solve_preserves_matrix (m : Matrix) (b : List ℚ) :
    ((m.solve b).2) = m ∧ ∀ i j, ((m.solve b).2).data i j = m.data i j := by
  constructor
  · simp only [Matrix.solve]
    split <;> rfl
  · intro i j
    simp only [Matrix.solve]
    split <;> rfl

/-- C7 (confirmed): on every successful analysis the returned potential
mapping assigns the ground node exactly 0. -/
theorem C7_ground_invariant (c : Circuit)
    (h : (analyzeNodalMethod c).isOk = true) :
    (analyzeNodalMethod c).voltageAt groundNode = some 0 := by
  obtain ⟨v, r, s, ha⟩ := isOk_inv h
  obtain ⟨x, ss, _, hv, _, _⟩ := analyze_ok_inv ha
  rw [ha, AnalysisResult.voltageAt, hv]
  exact mapGet_voltagesOf_ground c x

/-- C7, witness: the ladder circuit analyzes successfully and reports
0 V at ground. -/
theorem C7_witness :
    (analyzeNodalMethod c2good).isOk = true ∧
    (analyzeNodalMethod c2good).voltageAt groundNode = some 0 :=
  ⟨by decide, C7_ground_invariant c2good (by decide)⟩

/-- C8 (confirmed): every successful analysis yields exactly one step record
per phase, in the fixed order: identification, conductance conversion,
equation assembly, matrix display, elimination, interpretation,
per-component calculation, verification. -/
theorem C8_trace_phases (c : Circuit)
    (h : (analyzeNodalMethod c).isOk = true) :
    stepTitles (analyzeNodalMethod c) =
      ["1. IDENTIFICACIÓN Y ANÁLISIS DEL CIRCUITO", "2. CONVERSIÓN A CONDUCTANCIAS",
       "3. PLANTEAMIENTO DE ECUACIONES NODALES", "4. SISTEMA MATRICIAL [A][x] = [b]",
       "5. RESOLUCIÓN POR ELIMINACIÓN GAUSSIANA", "6. INTERPRETACIÓN DE RESULTADOS",
       "7. CÁLCULO DE CORRIENTES Y POTENCIAS", "8. VERIFICACIÓN DE RESULTADOS"] := by
  obtain ⟨v, r, s, ha⟩ := isOk_inv h
  obtain ⟨x, ss, _, _, _, hsteps⟩ := analyze_ok_inv ha
  rw [stepTitles, ha, AnalysisResult.stepsOf, hsteps]
  simp [preSolveSteps, step1, step2, step3, step4, step5, step6, step7, step8]

/-- C8, witness: the divider at `R = 2` produces the eight phase records in
order. -/
theorem C8_witness :
    (analyzeNodalMethod (divC 2)).isOk = true ∧
    stepTitles (analyzeNodalMethod (divC 2)) =
      ["1. IDENTIFICACIÓN Y ANÁLISIS DEL CIRCUITO", "2. CONVERSIÓN A CONDUCTANCIAS",
       "3. PLANTEAMIENTO DE ECUACIONES NODALES", "4. SISTEMA MATRICIAL [A][x] = [b]",
       "5. RESOLUCIÓN POR ELIMINACIÓN GAUSSIANA", "6. INTERPRETACIÓN DE RESULTADOS",
       "7. CÁLCULO DE CORRIENTES Y POTENCIAS", "8. VERIFICACIÓN DE RESULTADOS"] :=
  ⟨by decide, C8_trace_phases (divC 2) (by decide)⟩

/-- C10 (confirmed): the ground is identified solely by the literal
identifier `gnd`: every successful analysis returns the key `gnd` at 0
(whether or not a node of that name exists), and every node whose
identifier differs from `gnd` receives an unknown index. -/
theorem C10_ground_literal (c : Circuit)
    (h : (analyzeNodalMethod c).isOk = true) :
    (analyzeNodalMethod c).voltageAt "gnd" = some 0 ∧
    ∀ n ∈ c.nodes, n.id ≠ "gnd" → ∃ i, nodeIdx c n.id = some i := by
  constructor
  · obtain ⟨v, r, s, ha⟩ := isOk_inv h
    obtain ⟨x, ss, _, hv, _, _⟩ := analyze_ok_inv ha
    rw [ha, AnalysisResult.voltageAt, hv]
    exact mapGet_voltagesOf_ground c x
  · intro n hn hne
    have hmem : n ∈ unknownNodes c := by
      rw [unknownNodes, List.mem_filter]
      exact ⟨hn, by simp [groundNode, hne]⟩
    obtain ⟨k, hk⟩ := mem_enumFrom (n := 0) hmem
    have hfil : (k, n) ∈ (enumFrom 0 (unknownNodes c)).filter (fun p => p.2.id = n.id) :=
      List.mem_filter.mpr ⟨hk, by simp⟩
    have hne2 : (enumFrom 0 (unknownNodes c)).filter (fun p => p.2.id = n.id) ≠ [] :=
      List.ne_nil_of_mem hfil
    rw [nodeIdx]
    rcases hlast : ((enumFrom 0 (unknownNodes c)).filter (fun p => p.2.id = n.id)).getLast?
      with _ | p
    · exact absurd (List.getLast?_eq_none_iff.mp hlast) hne2
    · exact ⟨p.1, by rw [hlast]; rfl⟩

/-- C3 (corrected): on every successful analysis the verification step ends
with the fail marker iff the signed difference `supplied − dissipated` is
not below `0.001` (the code omits `Math.abs` and uses a strict `<` test for
the pass marker), and the check never blocks the result: the outcome stays
a success either way. -/
theorem C3_energy_marker (c : Circuit)
    (h : (analyzeNodalMethod c).isOk = true) :
    ((analyzeNodalMethod c).lastMarker = some "⚠ Revisar balance de energía" ↔
      ¬((analyzeNodalMethod c).suppliedOf - (analyzeNodalMethod c).dissipatedOf <
        1 / 1000)) := by
  obtain ⟨v, r, s, ha⟩ := isOk_inv h
  obtain ⟨x, ss, _, hv, hr, hsteps⟩ := analyze_ok_inv ha
  rw [ha, AnalysisResult.lastMarker, AnalysisResult.stepsOf, hsteps,
    AnalysisResult.suppliedOf, AnalysisResult.dissipatedOf, AnalysisResult.resultsOf, hr]
  have hlast : (preSolveSteps c ++
      [step5 ss, step6 c x,
       step7 (voltagesOf c x) (componentResultsOf c (voltagesOf c x) x),
       step8 (componentResultsOf c (voltagesOf c x) x)]).getLast? =
      some (step8 (componentResultsOf c (voltagesOf c x) x)) := by
    apply getLast?_append_right
    rfl
  rw [hlast]
  show (verificationEquations (componentResultsOf c (voltagesOf c x) x)).getLast? =
      some "⚠ Revisar balance de energía" ↔ _
  rw [verificationEquations_getLast]
  by_cases hc : totalPowerSupplied (componentResultsOf c (voltagesOf c x) x) -
      totalPowerDissipated (componentResultsOf c (voltagesOf c x) x) < 1 / 1000
  · rw [if_pos hc]
    exact iff_of_false (fun he => absurd (Option.some.inj he) (by decide))
      (not_not_intro hc)
  · rw [if_neg hc]
    exact iff_of_true rfl hc

/-- C3, witness: the boundary circuit `c3x` analyzes successfully and
instantiates the corrected marker condition. -/
theorem C3_witness :
    (analyzeNodalMethod c3x).isOk = true ∧
    ((analyzeNodalMethod c3x).lastMarker = some "⚠ Revisar balance de energía" ↔
      ¬((analyzeNodalMethod c3x).suppliedOf - (analyzeNodalMethod c3x).dissipatedOf <
        1 / 1000)) :=
  ⟨by decide, C3_energy_marker c3x (by decide)⟩

/-- C9 (confirmed): current sources stamp nothing — the assembled system of
a circuit equals that of the same circuit with all current sources removed;
every CurrentSource result carries current 0 and power 0; and both power
sums of the verification step are unchanged by removing current sources. -/
theorem C9_current_sources_inert (c : Circuit) :
    (buildA (removeCS c) = buildA c ∧ buildb (removeCS c) = buildb c) ∧
    (∀ v x res, res ∈ componentResultsOf c v x →
      res.type = ComponentType.CurrentSource → res.current = 0 ∧ res.power = 0) ∧
    ∀ v x,
      totalPowerDissipated (componentResultsOf (removeCS c) v x) =
        totalPowerDissipated (componentResultsOf c v x) ∧
      totalPowerSupplied (componentResultsOf (removeCS c) v x) =
        totalPowerSupplied (componentResultsOf c v x) := by
  refine ⟨⟨buildA_removeCS c, buildb_removeCS c⟩, ?_, fun v x =>
    ⟨dissipated_removeCS c v x, supplied_removeCS c v x⟩⟩
  intro v x res hres hty
  obtain ⟨comp, hcomp, hres⟩ := List.mem_map.mp hres
  have htyc : comp.type = ComponentType.CurrentSource := by
    rw [← hres] at hty
    exact hty
  subst hres
  unfold componentResultOf
  rw [htyc]
  refine ⟨by simp, by simp⟩

/-- C9, witness: in `c9w` the declared current source yields a result entry
with current 0 and power 0. -/
theorem C9_witness :
    (⟨"I1", ComponentType.CurrentSource, ("n1", "gnd"), 2, "A", 12, 0, 0⟩ :
        ComponentResult) ∈
      componentResultsOf c9w (voltagesOf c9w [12, -2]) [12, -2] ∧
    ((⟨"I1", ComponentType.CurrentSource, ("n1", "gnd"), 2, "A", 12, 0, 0⟩ :
        ComponentResult).current = 0 ∧
      (⟨"I1", ComponentType.CurrentSource, ("n1", "gnd"), 2, "A", 12, 0, 0⟩ :
        ComponentResult).power = 0) :=
  ⟨by decide,
   (C9_current_sources_inert c9w).2.1 (voltagesOf c9w [12, -2]) [12, -2] _
     (by decide) (by decide)⟩

/-- C10, witness: `c10w` has no node named `gnd`, yet its successful
analysis maps `gnd` to 0. -/
theorem C10_witness :
    (analyzeNodalMethod c10w).isOk = true ∧
    ((analyzeNodalMethod c10w).voltageAt "gnd" = some 0 ∧
      ∀ n ∈ c10w.nodes, n.id ≠ "gnd" → ∃ i, nodeIdx c10w n.id = some i) :=
  ⟨by decide, C10_ground_literal c10w (by decide)⟩

end Nodos
